import Mathlib

/-!
Verification of the text-overlay microservice core (`api/overlay.js` and its
variants) against its natural-language specification.

The JavaScript source is shallowly embedded: canvas text measurement
(`ctx.measureText(...).width` under the font set for a given size) is
abstracted as a function `measure : ℕ → String → ℚ` from font size and text to
measured width; pixel data (`ImageData.data`, RGBA bytes) is a `List ℕ`;
hex-color strings are `String`.  All numeric literals of the source
(`0.299`, `1.2`, `0.05`, ...) are carried exactly in `ℚ`.  The transcendental
`Math.pow(x, 2.4)` of the WCAG luminance formula is abstracted as an explicit
function parameter `pow24`.
-/

/-- Overlay configuration constant `OVERLAY_CONFIG.FONT_SIZE_MAX`. -/
def FONT_SIZE_MAX : ℕ := 120

/-- Overlay configuration constant `OVERLAY_CONFIG.FONT_SIZE_MIN`. -/
def FONT_SIZE_MIN : ℕ := 80

/-- Overlay configuration constant `OVERLAY_CONFIG.FONT_SIZE_STEP`. -/
def FONT_SIZE_STEP : ℕ := 2

/-- Helper for `jsSplitSpace`: walks the character list, cutting at each
space, accumulating the current chunk in reverse.  Mirrors the semantics of
JavaScript `text.split(' ')` (single-character separator): empty chunks are
kept, and the result always has at least one element. -/
def jsSplitSpaceAux : List Char → List Char → List String
  | [], acc => [String.mk acc.reverse]
  | c :: rest, acc =>
    if c = ' ' then String.mk acc.reverse :: jsSplitSpaceAux rest []
    else jsSplitSpaceAux rest (c :: acc)

/-- JavaScript `text.split(' ')` as used by `wrapText`. -/
def jsSplitSpace (s : String) : List String := jsSplitSpaceAux s.data []

/-- One iteration of the `for (const word of words)` loop of `wrapText`.
State is `(lines, currentLine)`.  `testLine` is
`currentLine ? currentLine + ' ' + word : word`; if
`measure(testLine) > maxWidth && currentLine` the current line is pushed and
the word starts a new line, otherwise the test line becomes the current
line. -/
def wrapStep (measure : String → ℚ) (maxWidth : ℚ) (st : List String × String) (word : String) :
    List String × String :=
  let testLine := if st.2 ≠ "" then st.2 ++ " " ++ word else word
  if measure testLine > maxWidth ∧ st.2 ≠ "" then (st.1 ++ [st.2], word) else (st.1, testLine)

/-- `wrapText(ctx, text, maxWidth)` of the source: greedy word wrap.  After
the loop, a non-empty `currentLine` is pushed. -/
def wrapText (measure : String → ℚ) (text : String) (maxWidth : ℚ) : List String :=
  let st := (jsSplitSpace text).foldl (wrapStep measure maxWidth) ([], "")
  if st.2 ≠ "" then st.1 ++ [st.2] else st.1

/-- The `while (fontSize >= FONT_SIZE_MIN)` loop of `calculateTextLayout`,
parametrised by the current candidate `fontSize`.  At each size: accept the
single line if `measureText(text).width <= maxWidth`; otherwise accept the
greedy wrap if it has at most 2 lines and
`lines.length * (fontSize * 1.2) <= maxHeight`; otherwise decrement by
`FONT_SIZE_STEP`.  Below `FONT_SIZE_MIN` the fallback returns the minimum
size with the wrap truncated to its first 2 lines (`lines.slice(0, 2)`). -/
def layoutLoop (measure : ℕ → String → ℚ) (text : String) (maxWidth maxHeight : ℚ)
    (fontSize : ℕ) : ℕ × List String :=
  if h : FONT_SIZE_MIN ≤ fontSize then
    if measure fontSize text ≤ maxWidth then (fontSize, [text])
    else
      let lines := wrapText (measure fontSize) text maxWidth
      if lines.length ≤ 2 ∧ (lines.length : ℚ) * ((fontSize : ℚ) * (6 / 5)) ≤ maxHeight then
        (fontSize, lines)
      else layoutLoop measure text maxWidth maxHeight (fontSize - FONT_SIZE_STEP)
  else (FONT_SIZE_MIN, (wrapText (measure FONT_SIZE_MIN) text maxWidth).take 2)
termination_by fontSize
decreasing_by
  simp only [FONT_SIZE_MIN] at h
  simp only [FONT_SIZE_STEP]
  omega

/-- `calculateTextLayout(ctx, text, fontFamily, maxWidth, maxHeight)`:
the search starts at `FONT_SIZE_MAX`. -/
def calculateTextLayout (measure : ℕ → String → ℚ) (text : String) (maxWidth maxHeight : ℚ) :
    ℕ × List String :=
  layoutLoop measure text maxWidth maxHeight FONT_SIZE_MAX

/-- The `while` loop of `calculateOptimalFontSize` (single-line banner
variant): return the first size from `FONT_SIZE_MAX` downwards at which the
whole text measures at most `maxWidth`; below the minimum return
`FONT_SIZE_MIN`. -/
def optimalLoop (measure : ℕ → String → ℚ) (text : String) (maxWidth : ℚ) (fontSize : ℕ) : ℕ :=
  if h : FONT_SIZE_MIN ≤ fontSize then
    if measure fontSize text ≤ maxWidth then fontSize
    else optimalLoop measure text maxWidth (fontSize - FONT_SIZE_STEP)
  else FONT_SIZE_MIN
termination_by fontSize
decreasing_by
  simp only [FONT_SIZE_MIN] at h
  simp only [FONT_SIZE_STEP]
  omega

/-- `calculateOptimalFontSize(ctx, text, fontFamily, maxWidth)`. -/
def calculateOptimalFontSize (measure : ℕ → String → ℚ) (text : String) (maxWidth : ℚ) : ℕ :=
  optimalLoop measure text maxWidth FONT_SIZE_MAX

/-- The candidate font sizes visited by the search:
`FONT_SIZE_MAX, FONT_SIZE_MAX - FONT_SIZE_STEP, ..., FONT_SIZE_MIN`
(21 values for the deployed constants 120/80/2). -/
def candidateSizes : List ℕ := (List.range 21).map (fun k => FONT_SIZE_MAX - FONT_SIZE_STEP * k)

/-- The single-line acceptance test of `calculateTextLayout` at size `fs`. -/
abbrev singleLineFits (measure : ℕ → String → ℚ) (text : String) (maxWidth : ℚ) (fs : ℕ) :
    Prop :=
  measure fs text ≤ maxWidth

/-- The wrapped-layout acceptance test of `calculateTextLayout` at size `fs`:
at most 2 lines and total height `lines.length * (fs * 1.2)` within
`maxHeight`. -/
abbrev wrapAccepted (measure : ℕ → String → ℚ) (text : String) (maxWidth maxHeight : ℚ)
    (fs : ℕ) : Prop :=
  (wrapText (measure fs) text maxWidth).length ≤ 2 ∧
    ((wrapText (measure fs) text maxWidth).length : ℚ) * ((fs : ℚ) * (6 / 5)) ≤ maxHeight

/-- An acceptable 1-or-2-line layout exists at size `fs`. -/
abbrev acceptableLayout (measure : ℕ → String → ℚ) (text : String) (maxWidth maxHeight : ℚ)
    (fs : ℕ) : Prop :=
  singleLineFits measure text maxWidth fs ∨ wrapAccepted measure text maxWidth maxHeight fs

/-! ### Background analysis: brightness mode (`calculateRegionBrightness`) -/

/-- Number of loop iterations of the `for (let i = 0; i < data.length; i += 40)`
sampling loops (`pixelCount`): one sample per 40 bytes, i.e. every 10th RGBA
pixel. -/
def sampleCount (len : ℕ) : ℕ := (len + 39) / 40

/-- The byte offsets `0, 40, 80, ...` visited by the sampling loops. -/
def sampleOffsets (data : List ℕ) : List ℕ :=
  (List.range (sampleCount data.length)).map (fun k => 40 * k)

/-- Perceived brightness `0.299*r + 0.587*g + 0.114*b` of the sample starting
at byte offset `i` (out-of-range reads default to 0; the loop guard
`i < data.length` together with RGBA data length being a multiple of 4 keeps
all reads in range). -/
def brightnessAt (data : List ℕ) (i : ℕ) : ℚ :=
  (299 / 1000) * (data.getD i 0 : ℚ) + (587 / 1000) * (data.getD (i + 1) 0 : ℚ) +
    (114 / 1000) * (data.getD (i + 2) 0 : ℚ)

/-- `calculateRegionBrightness(ctx, x, y, width, height)`: average perceived
brightness over every-10th-pixel samples of the region's RGBA data.
(For empty data the source divides 0 by 0, yielding NaN; in `ℚ` this is 0.
All stated properties assume a non-empty region.) -/
def calculateRegionBrightness (data : List ℕ) : ℚ :=
  ((sampleOffsets data).map (brightnessAt data)).sum / ((sampleOffsets data).length : ℚ)

/-- A text shadow configuration (`TEXT_SHADOW_LIGHT` / `TEXT_SHADOW_DARK`). -/
structure ShadowCfg where
  color : String
  blur : ℕ
  offsetX : ℕ
  offsetY : ℕ
  deriving DecidableEq, Repr

/-- `OVERLAY_CONFIG.TEXT_SHADOW_LIGHT`: the shadow used for light (white) text
on a dark background. -/
def TEXT_SHADOW_LIGHT : ShadowCfg := ⟨"rgba(0, 0, 0, 0.8)", 8, 3, 3⟩

/-- `OVERLAY_CONFIG.TEXT_SHADOW_DARK`: the shadow used for dark (black) text
on a light background. -/
def TEXT_SHADOW_DARK : ShadowCfg := ⟨"rgba(255, 255, 255, 0.8)", 8, 3, 3⟩

/-- The color decision of `applyTextOverlay` (brightness variant):
`isLightBackground = avgBrightness > 128`, then
`(textColor, strokeColor, textShadow)` as in the source. -/
def brightnessOverlayColors (avgBrightness : ℚ) : String × String × ShadowCfg :=
  let isLightBackground := 128 < avgBrightness
  (if isLightBackground then "#000000" else "#FFFFFF",
   if isLightBackground then "#FFFFFF" else "#000000",
   if isLightBackground then TEXT_SHADOW_DARK else TEXT_SHADOW_LIGHT)

/-! ### Background analysis: dominant-color mode -/

/-- Channel quantization of `extractDominantColor`:
`Math.floor(value / 32) * 32` (8 buckets per channel for byte inputs). -/
def quantizeChannel (c : ℕ) : ℕ := c / 32 * 32

/-- The RGB triples read by the sampling loop of `extractDominantColor`. -/
def sampleTriples (data : List ℕ) : List (ℕ × ℕ × ℕ) :=
  (sampleOffsets data).map (fun i => (data.getD i 0, data.getD (i + 1) 0, data.getD (i + 2) 0))

/-- Quantization of one sampled triple: the bucket key
`bucketR,bucketG,bucketB` (string keys of distinct triples are distinct, so
the key is modelled as the triple itself). -/
def bucketOf (t : ℕ × ℕ × ℕ) : ℕ × ℕ × ℕ :=
  (quantizeChannel t.1, quantizeChannel t.2.1, quantizeChannel t.2.2)

/-- The quantized sample stream tallied by `extractDominantColor`. -/
def bucketedSamples (data : List ℕ) : List (ℕ × ℕ × ℕ) :=
  (sampleTriples data).map bucketOf

/-- `colorBuckets[key] = (colorBuckets[key] || 0) + 1` on an association list.
A JavaScript object with non-index keys preserves insertion order, so a new
key is appended; an existing key is incremented in place. -/
def tallyInsert (l : List ((ℕ × ℕ × ℕ) × ℕ)) (k : ℕ × ℕ × ℕ) : List ((ℕ × ℕ × ℕ) × ℕ) :=
  match l with
  | [] => [(k, 1)]
  | e :: rest => if e.1 = k then (e.1, e.2 + 1) :: rest else e :: tallyInsert rest k

/-- The `colorBuckets` tally of `extractDominantColor`, in
`Object.entries` order (insertion order of the keys). -/
def colorBuckets (data : List ℕ) : List ((ℕ × ℕ × ℕ) × ℕ) :=
  (bucketedSamples data).foldl tallyInsert []

/-- One step of the `for (const [key, count] of Object.entries(colorBuckets))`
maximum scan: `if (count > maxCount) { maxCount = count; dominantKey = key }`.
State is `(maxCount, dominantKey)`. -/
def scanStep (st : ℕ × (ℕ × ℕ × ℕ)) (e : (ℕ × ℕ × ℕ) × ℕ) : ℕ × (ℕ × ℕ × ℕ) :=
  if st.1 < e.2 then (e.2, e.1) else st

/-- `extractDominantColor(ctx, x, y, width, height)`: the most frequent
quantized bucket, defaulting to `'128,128,128'` when no sample updates the
scan. -/
def extractDominantColor (data : List ℕ) : ℕ × ℕ × ℕ :=
  ((colorBuckets data).foldl scanStep (0, (128, 128, 128))).2

/-- Association-list lookup of a tally count (JavaScript
`colorBuckets[key] || 0`). -/
def tallyLookup : List ((ℕ × ℕ × ℕ) × ℕ) → (ℕ × ℕ × ℕ) → ℕ
  | [], _ => 0
  | e :: rest, k => if e.1 = k then e.2 else tallyLookup rest k

/-- Number of occurrences of a bucket key in the quantized sample stream. -/
def occCount : List (ℕ × ℕ × ℕ) → (ℕ × ℕ × ℕ) → ℕ
  | [], _ => 0
  | x :: rest, k => (if x = k then 1 else 0) + occCount rest k

/-- `calculateLuminance(r, g, b)` (WCAG relative luminance), with the
transcendental `Math.pow(x, 2.4)` abstracted as the parameter `pow24`.
Each channel is divided by 255 and passed through the sRGB piecewise
transform `c <= 0.03928 ? c / 12.92 : ((c + 0.055) / 1.055) ^ 2.4`. -/
def calculateLuminance (pow24 : ℚ → ℚ) (r g b : ℕ) : ℚ :=
  let lin : ℕ → ℚ := fun v =>
    let c := (v : ℚ) / 255
    if c ≤ 3928 / 100000 then c / (1292 / 100) else pow24 ((c + 55 / 1000) / (1055 / 1000))
  (2126 / 10000) * lin r + (7152 / 10000) * lin g + (722 / 10000) * lin b

/-- `getContrastRatio(r1, g1, b1, r2, g2, b2)`:
`(max(L1, L2) + 0.05) / (min(L1, L2) + 0.05)`. -/
def getContrastRatio (pow24 : ℚ → ℚ) (r1 g1 b1 r2 g2 b2 : ℕ) : ℚ :=
  let lum1 := calculateLuminance pow24 r1 g1 b1
  let lum2 := calculateLuminance pow24 r2 g2 b2
  (max lum1 lum2 + 1 / 20) / (min lum1 lum2 + 1 / 20)

/-- `getContrastingTextColor(dominantColor)`: compare the contrast of the
dominant color against pure white and pure black, preferring whichever is
higher, with the 4.5:1 threshold branches of the source. -/
def getContrastingTextColor (pow24 : ℚ → ℚ) (dominantColor : ℕ × ℕ × ℕ) : String :=
  let whiteContrast :=
    getContrastRatio pow24 dominantColor.1 dominantColor.2.1 dominantColor.2.2 255 255 255
  let blackContrast :=
    getContrastRatio pow24 dominantColor.1 dominantColor.2.1 dominantColor.2.2 0 0 0
  if whiteContrast ≥ blackContrast ∧ whiteContrast ≥ 9 / 2 then "#FFFFFF"
  else if blackContrast ≥ 9 / 2 then "#000000"
  else if whiteContrast ≥ blackContrast then "#FFFFFF" else "#000000"

/-! ### Font resolution -/

/-- The `FONT_FAMILIES` object literal of the base variants (own
properties). -/
def FONT_FAMILIES : List (String × String) :=
  [("Inter", "Inter-Bold.ttf"), ("Poppins", "Poppins-Bold.ttf"),
   ("Montserrat", "Montserrat-Bold.ttf"), ("Oswald", "Oswald-SemiBold.ttf")]

/-- The `FONT_FAMILIES` object literal of the lower-third variant, which adds
`Product Sans` and maps every family to the Montserrat variable font. -/
def FONT_FAMILIES_VARIANT : List (String × String) :=
  [("Inter", "Montserrat-VariableFont_wght.ttf"), ("Poppins", "Montserrat-VariableFont_wght.ttf"),
   ("Montserrat", "Montserrat-VariableFont_wght.ttf"), ("Oswald", "Montserrat-VariableFont_wght.ttf"),
   ("Product Sans", "Montserrat-VariableFont_wght.ttf")]

/-- Property names every plain JavaScript object literal inherits from
`Object.prototype`.  Reading one of them on `FONT_FAMILIES` yields a truthy
non-string value (a function, or the prototype object for `__proto__`), not
`undefined`. -/
def OBJECT_PROTOTYPE_MEMBERS : List String :=
  ["constructor", "hasOwnProperty", "isPrototypeOf", "propertyIsEnumerable",
   "toLocaleString", "toString", "valueOf", "__defineGetter__", "__defineSetter__",
   "__lookupGetter__", "__lookupSetter__", "__proto__"]

/-- Result of the JavaScript property read `FONT_FAMILIES[name]`: an own
(string-valued) property, a truthy non-string value inherited from
`Object.prototype`, or `undefined`. -/
inductive PropLookup where
  | ownStr (value : String)
  | inherited
  | undefinedProp
  deriving DecidableEq, Repr

/-- JavaScript property lookup on an object literal: own properties first,
then the `Object.prototype` chain. -/
def jsLookup (obj : List (String × String)) (key : String) : PropLookup :=
  match obj.find? (fun e => e.1 == key) with
  | some e => .ownStr e.2
  | none => if key ∈ OBJECT_PROTOTYPE_MEMBERS then .inherited else .undefinedProp

/-- The error outcomes of the font-registration step of `applyTextOverlay`. -/
inductive OverlayError where
  | unknownFontFamily (name : String)
  | pathArgTypeError
  deriving DecidableEq, Repr

/-- The font-resolution step of `applyTextOverlay`:
`const fontFileName = FONT_FAMILIES[styleConfig.fontFamily];
if (!fontFileName) throw new Error('Unknown font family: ...')`, followed by
`path.join(__dirname, '..', 'fonts', fontFileName)`.  `!fontFileName` is the
JavaScript falsiness test, so a truthy value inherited from
`Object.prototype` passes the guard and `path.join` then throws a `TypeError`
because its argument is not a string. -/
def resolveFontFile (obj : List (String × String)) (fontFamilyName : String) :
    Except OverlayError String :=
  match jsLookup obj fontFamilyName with
  | .undefinedProp => .error (.unknownFontFamily fontFamilyName)
  | .inherited => .error .pathArgTypeError
  | .ownStr f => .ok f

/-! ### Zero-width measurement fallback -/

/-- The font specification string `` `${fontWeight} ${fontSize}px "${family}"` ``. -/
def weightedFontSpec (fontWeight : String) (fontSize : ℕ) (family : String) : String :=
  fontWeight ++ " " ++ toString fontSize ++ "px \"" ++ family ++ "\""

/-- The font specification string `` `${fontSize}px "${family}"` `` (no
weight), used by the first fallback attempt. -/
def bareFontSpec (fontSize : ℕ) (family : String) : String :=
  toString fontSize ++ "px \"" ++ family ++ "\""

/-- The universal fallback `` `bold ${fontSize}px Arial` ``. -/
def arialFontSpec (fontSize : ℕ) : String := "bold " ++ toString fontSize ++ "px Arial"

/-- The zero-width measurement guard of `applyTextOverlay` (steps around
`testMetrics.width === 0`): measure under the weighted spec; on zero width
retry with the weight-free spec; on zero width again substitute Arial.
`measureW` maps a `ctx.font` specification string to the measured width of
the probed text under that font.  Returns the font specification finally left
in `ctx.font`. -/
def chooseRenderFont (measureW : String → ℚ) (fontWeight : String) (fontSize : ℕ)
    (family : String) : String :=
  let primary := weightedFontSpec fontWeight fontSize family
  if measureW primary = 0 then
    let second := bareFontSpec fontSize family
    if measureW second = 0 then arialFontSpec fontSize else second
  else primary

/-! ### Explicit-color variant: `hexToRgb` -/

/-- True exactly on the characters matched by the `[a-f\d]` character class
of the `hexToRgb` regex with the `i` flag. -/
def isHexDigitJs (c : Char) : Bool :=
  ('0' ≤ c && c ≤ '9') || ('a' ≤ c && c ≤ 'f') || ('A' ≤ c && c ≤ 'F')

/-- Numeric value of a hex digit (`parseInt` semantics for valid digits). -/
def hexDigitVal (c : Char) : ℕ :=
  if '0' ≤ c ∧ c ≤ '9' then c.toNat - '0'.toNat
  else if 'a' ≤ c ∧ c ≤ 'f' then c.toNat - 'a'.toNat + 10
  else if 'A' ≤ c ∧ c ≤ 'F' then c.toNat - 'A'.toNat + 10
  else 0

/-- `parseInt(result[i], 16)` on one captured two-digit group. -/
def parseHexPair (c1 c2 : Char) : ℕ := 16 * hexDigitVal c1 + hexDigitVal c2

/-- Strips the leading `#` consumed by the optional `#?` of the `hexToRgb`
regex (only a literal `#` can be consumed there). -/
def stripHash (l : List Char) : List Char :=
  match l with
  | c :: rest => if c = '#' then rest else c :: rest
  | [] => []

/-- Matching of the anchored body `([a-f\d]{2})([a-f\d]{2})([a-f\d]{2})$`:
exactly six hex digits, parsed into the three captured pairs. -/
def hexBody : List Char → Option (ℕ × ℕ × ℕ)
  | [c1, c2, c3, c4, c5, c6] =>
    if isHexDigitJs c1 && isHexDigitJs c2 && isHexDigitJs c3 && isHexDigitJs c4 &&
        isHexDigitJs c5 && isHexDigitJs c6 then
      some (parseHexPair c1 c2, parseHexPair c3 c4, parseHexPair c5 c6)
    else none
  | _ => none

/-- `hexToRgb(hex)` of the explicit-color variant: match
`/^#?([a-f\d]{2})([a-f\d]{2})([a-f\d]{2})$/i` (the optional `#` can only
consume a literal `#`, since `#` is not a hex digit) and parse the groups;
on no match fall back to grey `{ r: 64, g: 64, b: 64 }`. -/
def hexToRgb (s : String) : ℕ × ℕ × ℕ :=
  match hexBody (stripHash s.data) with
  | some rgb => rgb
  | none => (64, 64, 64)

/-! ### Concrete inputs used by witnesses and counterexamples -/

/-- A measurement function under which every string is 50 wide at every
size. -/
def measureNarrow : ℕ → String → ℚ := fun _ _ => 50

/-- A measurement function under which every string is 10000 wide at every
size (nothing ever fits). -/
def measureHuge : ℕ → String → ℚ := fun _ _ => 10000

/-- A measurement function under which text fits on one line exactly at
sizes `<= 100`. -/
def measureUpTo100 : ℕ → String → ℚ := fun fs _ => if fs ≤ 100 then 10 else 1000

/-- A measurement function giving width 0 to the empty string and 1000 to
everything else (qualitatively the shape of real text measurement, where
only the empty string measures 0). -/
def measureEmptyZero : ℕ → String → ℚ := fun _ s => if s = "" then 0 else 1000

/-- A width probe that measures 0 under every font specification (a totally
non-functional font). -/
def measureZeroW : String → ℚ := fun _ => 0


lemma layoutLoop_of_lt (measure : ℕ → String → ℚ) (text : String) (maxWidth maxHeight : ℚ)
    {fs : ℕ} (h : fs < FONT_SIZE_MIN) :
    layoutLoop measure text maxWidth maxHeight fs =
      (FONT_SIZE_MIN, (wrapText (measure FONT_SIZE_MIN) text maxWidth).take 2) := by
  rw [layoutLoop, dif_neg (by omega)]

lemma layoutLoop_single (measure : ℕ → String → ℚ) (text : String) (maxWidth maxHeight : ℚ)
    {fs : ℕ} (hmin : FONT_SIZE_MIN ≤ fs) (hfit : measure fs text ≤ maxWidth) :
    layoutLoop measure text maxWidth maxHeight fs = (fs, [text]) := by
  rw [layoutLoop, dif_pos hmin, if_pos hfit]

lemma layoutLoop_wrap (measure : ℕ → String → ℚ) (text : String) (maxWidth maxHeight : ℚ)
    {fs : ℕ} (hmin : FONT_SIZE_MIN ≤ fs) (hnofit : ¬ measure fs text ≤ maxWidth)
    (hwrap : wrapAccepted measure text maxWidth maxHeight fs) :
    layoutLoop measure text maxWidth maxHeight fs = (fs, wrapText (measure fs) text maxWidth) := by
  rw [layoutLoop, dif_pos hmin, if_neg hnofit]
  simp only []
  rw [if_pos hwrap]

lemma layoutLoop_step (measure : ℕ → String → ℚ) (text : String) (maxWidth maxHeight : ℚ)
    {fs : ℕ} (hmin : FONT_SIZE_MIN ≤ fs)
    (hnacc : ¬ acceptableLayout measure text maxWidth maxHeight fs) :
    layoutLoop measure text maxWidth maxHeight fs =
      layoutLoop measure text maxWidth maxHeight (fs - FONT_SIZE_STEP) := by
  rw [layoutLoop, dif_pos hmin]
  rw [if_neg (fun hfit => hnacc (Or.inl hfit))]
  simp only []
  rw [if_neg (fun hw => hnacc (Or.inr hw))]

lemma optimalLoop_of_lt (measure : ℕ → String → ℚ) (text : String) (maxWidth : ℚ)
    {fs : ℕ} (h : fs < FONT_SIZE_MIN) :
    optimalLoop measure text maxWidth fs = FONT_SIZE_MIN := by
  rw [optimalLoop, dif_neg (by omega)]

lemma mem_candidateSizes {fs : ℕ} :
    fs ∈ candidateSizes ↔ FONT_SIZE_MIN ≤ fs ∧ fs ≤ FONT_SIZE_MAX ∧ fs % 2 = 0 := by
  simp only [candidateSizes, List.mem_map, List.mem_range, FONT_SIZE_MAX, FONT_SIZE_MIN,
    FONT_SIZE_STEP]
  constructor
  · rintro ⟨k, hk, rfl⟩
    omega
  · rintro ⟨h1, h2, h3⟩
    exact ⟨(120 - fs) / 2, by omega, by omega⟩

lemma layoutLoop_finds_max (measure : ℕ → String → ℚ) (text : String) (maxWidth maxHeight : ℚ)
    (s : ℕ) (hs : s ∈ candidateSizes)
    (hacc : acceptableLayout measure text maxWidth maxHeight s)
    (hmax : ∀ t ∈ candidateSizes, acceptableLayout measure text maxWidth maxHeight t → t ≤ s) :
    ∀ fs : ℕ, s ≤ fs → fs ≤ FONT_SIZE_MAX → fs % 2 = 0 →
      layoutLoop measure text maxWidth maxHeight fs =
        (s, if measure s text ≤ maxWidth then [text]
            else wrapText (measure s) text maxWidth) := by
  intro fs
  induction fs using Nat.strong_induction_on with
  | _ fs ih =>
    intro hsle hle hpar
    rcases mem_candidateSizes.mp hs with ⟨hs1, hs2, hs3⟩
    rcases eq_or_lt_of_le hsle with heq | hlt
    · subst heq
      by_cases hfit : measure s text ≤ maxWidth
      · rw [layoutLoop_single measure text maxWidth maxHeight hs1 hfit, if_pos hfit]
      · have hw : wrapAccepted measure text maxWidth maxHeight s := by
          rcases hacc with h | h
          · exact absurd h hfit
          · exact h
        rw [layoutLoop_wrap measure text maxWidth maxHeight hs1 hfit hw, if_neg hfit]
    · have hfsmem : fs ∈ candidateSizes := mem_candidateSizes.mpr ⟨by omega, hle, hpar⟩
      have hnacc : ¬ acceptableLayout measure text maxWidth maxHeight fs := by
        intro hconta
        exact absurd (hmax fs hfsmem hconta) (by omega)
      rw [layoutLoop_step measure text maxWidth maxHeight (by omega) hnacc]
      have hstep : fs - FONT_SIZE_STEP < fs := by
        simp only [FONT_SIZE_STEP]; omega
      exact ih (fs - FONT_SIZE_STEP) hstep (by simp only [FONT_SIZE_STEP]; omega)
        (by simp only [FONT_SIZE_STEP] at *; omega)
        (by simp only [FONT_SIZE_STEP] at *; omega)

lemma layoutLoop_none (measure : ℕ → String → ℚ) (text : String) (maxWidth maxHeight : ℚ)
    (hnone : ∀ t ∈ candidateSizes, ¬ acceptableLayout measure text maxWidth maxHeight t) :
    ∀ fs : ℕ, fs ≤ FONT_SIZE_MAX → fs % 2 = 0 →
      layoutLoop measure text maxWidth maxHeight fs =
        (FONT_SIZE_MIN, (wrapText (measure FONT_SIZE_MIN) text maxWidth).take 2) := by
  intro fs
  induction fs using Nat.strong_induction_on with
  | _ fs ih =>
    intro hle hpar
    by_cases hmin : FONT_SIZE_MIN ≤ fs
    · have hmem : fs ∈ candidateSizes := mem_candidateSizes.mpr ⟨hmin, hle, hpar⟩
      rw [layoutLoop_step measure text maxWidth maxHeight hmin (hnone fs hmem)]
      have hstep : fs - FONT_SIZE_STEP < fs := by
        simp only [FONT_SIZE_STEP]
        simp only [FONT_SIZE_MIN] at hmin
        omega
      exact ih (fs - FONT_SIZE_STEP) hstep (by simp only [FONT_SIZE_STEP]; omega)
        (by simp only [FONT_SIZE_STEP] at *
            simp only [FONT_SIZE_MIN] at hmin
            omega)
    · exact layoutLoop_of_lt measure text maxWidth maxHeight (by omega)

lemma string_append_ne_empty {a : String} (b : String) (h : a ≠ "") : a ++ b ≠ "" := by
  intro hab
  apply h
  have hd : a.data ++ b.data = ([] : List Char) := by
    have := congrArg String.data hab
    simpa [String.data_append] using this
  rcases List.append_eq_nil.mp hd with ⟨ha, _⟩
  cases a
  simp_all

/-- Invariant carried through the word loop of `wrapText`: the final result
is non-empty as soon as either some line was pushed or the current line is
non-empty. -/
def goodSt (st : List String × String) : Prop := st.1 ≠ [] ∨ st.2 ≠ ""

lemma goodSt_wrapStep (measure : String → ℚ) (maxWidth : ℚ) (st : List String × String)
    (word : String) (h : goodSt st) : goodSt (wrapStep measure maxWidth st word) := by
  by_cases hcur : st.2 = ""
  · rcases h with h | h
    · simp only [wrapStep, goodSt, hcur]
      simp only [ne_eq, not_true_eq_false, if_false, and_false, ite_false]
      exact Or.inl h
    · exact absurd hcur h
  · simp only [wrapStep, goodSt, if_pos (show st.2 ≠ "" from hcur)]
    split_ifs with hpush
    · exact Or.inl (by simp)
    · exact Or.inr (string_append_ne_empty _ (string_append_ne_empty " " hcur))

lemma goodSt_wrapStep_word (measure : String → ℚ) (maxWidth : ℚ) (st : List String × String)
    {word : String} (hw : word ≠ "") : goodSt (wrapStep measure maxWidth st word) := by
  by_cases hcur : st.2 = ""
  · simp only [wrapStep, goodSt, hcur]
    simp only [ne_eq, not_true_eq_false, if_false, and_false, ite_false]
    exact Or.inr hw
  · simp only [wrapStep, goodSt, if_pos (show st.2 ≠ "" from hcur)]
    split_ifs with hpush
    · exact Or.inl (by simp)
    · exact Or.inr (string_append_ne_empty _ (string_append_ne_empty " " hcur))

lemma goodSt_foldl (measure : String → ℚ) (maxWidth : ℚ) :
    ∀ (ws : List String) (st : List String × String),
      (goodSt st ∨ ∃ w ∈ ws, w ≠ "") →
      goodSt (ws.foldl (wrapStep measure maxWidth) st) := by
  intro ws
  induction ws with
  | nil =>
    intro st h
    rcases h with h | ⟨w, hw, _⟩
    · exact h
    · exact absurd hw (List.not_mem_nil w)
  | cons w ws ih =>
    intro st h
    rw [List.foldl_cons]
    apply ih
    rcases h with h | ⟨w', hw', hne⟩
    · exact Or.inl (goodSt_wrapStep measure maxWidth st w h)
    · rcases List.mem_cons.mp hw' with rfl | hmem
      · exact Or.inl (goodSt_wrapStep_word measure maxWidth st hne)
      · exact Or.inr ⟨w', hmem, hne⟩

lemma wrapText_ne_nil (measure : String → ℚ) (text : String) (maxWidth : ℚ)
    (h : ∃ w ∈ jsSplitSpace text, w ≠ "") : wrapText measure text maxWidth ≠ [] := by
  have hg := goodSt_foldl measure maxWidth (jsSplitSpace text) ([], "") (Or.inr h)
  simp only [wrapText]
  rcases hg with hg | hg
  · split_ifs
    · simp
    · exact hg
  · rw [if_pos hg]
    simp

lemma layoutLoop_invariant (measure : ℕ → String → ℚ) (text : String) (maxWidth maxHeight : ℚ) :
    ∀ fs : ℕ, fs ≤ FONT_SIZE_MAX →
      FONT_SIZE_MIN ≤ (layoutLoop measure text maxWidth maxHeight fs).1 ∧
      (layoutLoop measure text maxWidth maxHeight fs).1 ≤ FONT_SIZE_MAX ∧
      (layoutLoop measure text maxWidth maxHeight fs).2.length ≤ 2 ∧
      ((∃ w ∈ jsSplitSpace text, w ≠ "") →
        1 ≤ (layoutLoop measure text maxWidth maxHeight fs).2.length) := by
  intro fs
  induction fs using Nat.strong_induction_on with
  | _ fs ih =>
    intro hle
    by_cases hmin : FONT_SIZE_MIN ≤ fs
    · by_cases hfit : measure fs text ≤ maxWidth
      · rw [layoutLoop_single measure text maxWidth maxHeight hmin hfit]
        refine ⟨hmin, hle, by simp, fun _ => by simp⟩
      · by_cases hw : wrapAccepted measure text maxWidth maxHeight fs
        · rw [layoutLoop_wrap measure text maxWidth maxHeight hmin hfit hw]
          refine ⟨hmin, hle, hw.1, fun hword => ?_⟩
          have := wrapText_ne_nil (measure fs) text maxWidth hword
          exact Nat.one_le_iff_ne_zero.mpr (fun h0 => this (List.length_eq_zero.mp h0))
        · rw [layoutLoop_step measure text maxWidth maxHeight hmin
            (fun hacc => hacc.elim hfit hw)]
          have hstep : fs - FONT_SIZE_STEP < fs := by
            simp only [FONT_SIZE_STEP]
            simp only [FONT_SIZE_MIN] at hmin
            omega
          exact ih (fs - FONT_SIZE_STEP) hstep (by omega)
    · rw [layoutLoop_of_lt measure text maxWidth maxHeight (by omega)]
      refine ⟨le_refl _, by simp [FONT_SIZE_MIN, FONT_SIZE_MAX], ?_, fun hword => ?_⟩
      · simp [List.length_take]
      · have := wrapText_ne_nil (measure FONT_SIZE_MIN) text maxWidth hword
        have hpos : 0 < (wrapText (measure FONT_SIZE_MIN) text maxWidth).length :=
          List.length_pos.mpr this
        simp only [List.length_take]
        omega

lemma optimalLoop_invariant (measure : ℕ → String → ℚ) (text : String) (maxWidth : ℚ) :
    ∀ fs : ℕ, fs ≤ FONT_SIZE_MAX →
      FONT_SIZE_MIN ≤ optimalLoop measure text maxWidth fs ∧
      optimalLoop measure text maxWidth fs ≤ FONT_SIZE_MAX := by
  intro fs
  induction fs using Nat.strong_induction_on with
  | _ fs ih =>
    intro hle
    by_cases hmin : FONT_SIZE_MIN ≤ fs
    · rw [optimalLoop]
      rw [dif_pos hmin]
      by_cases hfit : measure fs text ≤ maxWidth
      · rw [if_pos hfit]
        exact ⟨hmin, hle⟩
      · rw [if_neg hfit]
        have hstep : fs - FONT_SIZE_STEP < fs := by
          simp only [FONT_SIZE_STEP]
          simp only [FONT_SIZE_MIN] at hmin
          omega
        exact ih (fs - FONT_SIZE_STEP) hstep (by omega)
    · rw [optimalLoop_of_lt measure text maxWidth (by omega)]
      exact ⟨le_refl _, by simp [FONT_SIZE_MIN, FONT_SIZE_MAX]⟩

lemma jsSplitSpaceAux_no_space :
    ∀ (l acc : List Char), (∀ c ∈ l, c ≠ ' ') →
      jsSplitSpaceAux l acc = [String.mk (acc.reverse ++ l)] := by
  intro l
  induction l with
  | nil => intro acc _; simp [jsSplitSpaceAux]
  | cons c rest ih =>
    intro acc h
    have hc : c ≠ ' ' := h c (List.mem_cons_self c rest)
    rw [jsSplitSpaceAux, if_neg hc, ih (c :: acc) (fun x hx => h x (List.mem_cons_of_mem c hx))]
    simp

lemma jsSplitSpace_no_space {text : String} (h : ∀ c ∈ text.data, c ≠ ' ') :
    jsSplitSpace text = [text] := by
  rw [jsSplitSpace, jsSplitSpaceAux_no_space text.data [] h]
  cases text
  simp

lemma wrapText_single_word (measure : String → ℚ) (maxWidth : ℚ) {text : String}
    (h1 : jsSplitSpace text = [text]) (h2 : text ≠ "") :
    wrapText measure text maxWidth = [text] := by
  simp only [wrapText, h1, List.foldl_cons, List.foldl_nil, wrapStep]
  simp [h2]

/-- C1: `calculateTextLayout` returns the largest candidate size in
`[FONT_SIZE_MIN, FONT_SIZE_MAX]` (stepping by `FONT_SIZE_STEP`) at which an
acceptable 1-or-2-line layout exists, preferring the single-line fit over the
greedy wrap at that size; in particular a caption that measures within
`maxWidth` at `FONT_SIZE_MAX` yields exactly one line at `FONT_SIZE_MAX`. -/
theorem claim_C1_layout_returns_largest_acceptable_size (measure : ℕ → String → ℚ)
    (text : String) (maxWidth maxHeight : ℚ) :
    (∀ s ∈ candidateSizes,
        acceptableLayout measure text maxWidth maxHeight s →
        (∀ t ∈ candidateSizes, acceptableLayout measure text maxWidth maxHeight t → t ≤ s) →
        calculateTextLayout measure text maxWidth maxHeight =
          (s, if measure s text ≤ maxWidth then [text]
              else wrapText (measure s) text maxWidth)) ∧
    (measure FONT_SIZE_MAX text ≤ maxWidth →
      calculateTextLayout measure text maxWidth maxHeight = (FONT_SIZE_MAX, [text])) := by
  constructor
  · intro s hs hacc hmax
    exact layoutLoop_finds_max measure text maxWidth maxHeight s hs hacc hmax FONT_SIZE_MAX
      (mem_candidateSizes.mp hs).2.1 (le_refl _) (by decide)
  · intro hfit
    exact layoutLoop_single measure text maxWidth maxHeight (by decide) hfit

lemma measureUpTo100_above {t : ℕ} (ht : ¬ t ≤ 100) (s : String) :
    measureUpTo100 t s = 1000 := by
  simp [measureUpTo100, ht]

lemma wrapText_abc_of_huge (measure : String → ℚ) (hm : ∀ s, 862 < measure s) :
    wrapText measure "a b c" 862 = ["a", "b", "c"] := by
  have hsplit : jsSplitSpace "a b c" = ["a", "b", "c"] := by decide
  simp only [wrapText, hsplit, List.foldl_cons, List.foldl_nil, wrapStep]
  simp only [gt_iff_lt, hm, true_and]
  decide

theorem claim_C1_witness :
    (calculateTextLayout measureUpTo100 "a b c" 862 240 = (100, ["a b c"])) ∧
    (calculateTextLayout measureNarrow "Hello World" 862 240 =
      (FONT_SIZE_MAX, ["Hello World"])) := by
  constructor
  · have h := (claim_C1_layout_returns_largest_acceptable_size measureUpTo100 "a b c"
      862 240).1 100 (by decide)
      (Or.inl (by norm_num [measureUpTo100]))
      (by
        intro t ht hacc
        by_contra hgt
        push_neg at hgt
        have ht100 : ¬ t ≤ 100 := by omega
        rcases hacc with hfit | hw
        · have hf : measureUpTo100 t "a b c" ≤ 862 := hfit
          rw [measureUpTo100_above ht100] at hf
          norm_num at hf
        · have h3 : wrapText (measureUpTo100 t) "a b c" 862 = ["a", "b", "c"] :=
            wrapText_abc_of_huge _ (fun s => by rw [measureUpTo100_above ht100]; norm_num)
          have hlen : (wrapText (measureUpTo100 t) "a b c" 862).length ≤ 2 := hw.1
          rw [h3] at hlen
          norm_num at hlen)
    rw [if_pos (by norm_num [measureUpTo100])] at h
    exact h
  · exact (claim_C1_layout_returns_largest_acceptable_size measureNarrow "Hello World"
      862 240).2 (by norm_num [measureNarrow])

/-- C5: when no candidate size admits a single-line fit or an acceptable
2-line wrap, `calculateTextLayout` returns `FONT_SIZE_MIN` with the greedy
wrap at `FONT_SIZE_MIN` truncated to its first 2 lines: words beyond those
two lines are dropped by `lines.slice(0, 2)`, never overflowed. -/
theorem claim_C5_min_size_truncated_fallback (measure : ℕ → String → ℚ) (text : String)
    (maxWidth maxHeight : ℚ)
    (hnone : ∀ t ∈ candidateSizes, ¬ acceptableLayout measure text maxWidth maxHeight t) :
    calculateTextLayout measure text maxWidth maxHeight =
      (FONT_SIZE_MIN, (wrapText (measure FONT_SIZE_MIN) text maxWidth).take 2) :=
  layoutLoop_none measure text maxWidth maxHeight hnone FONT_SIZE_MAX (le_refl _) (by decide)

theorem claim_C5_witness :
    calculateTextLayout measureHuge "a b c" 862 240 = (FONT_SIZE_MIN, ["a", "b"]) := by
  have habc : ∀ t : ℕ, wrapText (measureHuge t) "a b c" 862 = ["a", "b", "c"] :=
    fun t => wrapText_abc_of_huge _ (fun s => by norm_num [measureHuge])
  have h := claim_C5_min_size_truncated_fallback measureHuge "a b c" 862 240 (by
    intro t ht hacc
    rcases hacc with hfit | hw
    · have hf : measureHuge t "a b c" ≤ 862 := hfit
      norm_num [measureHuge] at hf
    · have hlen : (wrapText (measureHuge t) "a b c" 862).length ≤ 2 := hw.1
      rw [habc t] at hlen
      norm_num at hlen)
  rw [habc FONT_SIZE_MIN] at h
  exact h

/-- C9 (implicit): a caption that is a single word (no spaces) wider than
`maxWidth` at `FONT_SIZE_MAX` is accepted immediately by the wrap branch at
`FONT_SIZE_MAX` (one line, height `1.2 * FONT_SIZE_MAX` within `maxHeight`):
the result is that word as the sole line even though its measured width
exceeds `maxWidth`, because the wrap acceptance check never re-verifies line
width. -/
theorem claim_C9_overwide_single_word_kept_at_max (measure : ℕ → String → ℚ) (text : String)
    (maxWidth maxHeight : ℚ) (hne : text ≠ "") (hnospace : ∀ c ∈ text.data, c ≠ ' ')
    (hwide : maxWidth < measure FONT_SIZE_MAX text) (hh : 144 ≤ maxHeight) :
    calculateTextLayout measure text maxWidth maxHeight = (FONT_SIZE_MAX, [text]) ∧
      maxWidth < measure FONT_SIZE_MAX text := by
  have hsplit := jsSplitSpace_no_space hnospace
  have hwrap := wrapText_single_word (measure FONT_SIZE_MAX) maxWidth hsplit hne
  refine ⟨?_, hwide⟩
  unfold calculateTextLayout
  rw [layoutLoop_wrap measure text maxWidth maxHeight (by decide) (not_le.mpr hwide)
    ⟨by rw [hwrap]; norm_num, by
      rw [hwrap]
      have : (([text] : List String).length : ℚ) * ((FONT_SIZE_MAX : ℚ) * (6 / 5)) = 144 := by
        norm_num [FONT_SIZE_MAX]
      rw [this]
      exact hh⟩, hwrap]

theorem claim_C9_witness :
    calculateTextLayout measureHuge "Supercalifragilistic" 862 240 =
      (FONT_SIZE_MAX, ["Supercalifragilistic"]) ∧
      (862 : ℚ) < measureHuge FONT_SIZE_MAX "Supercalifragilistic" :=
  claim_C9_overwide_single_word_kept_at_max measureHuge "Supercalifragilistic" 862 240
    (by decide) (by decide) (by norm_num [measureHuge]) (by norm_num)

/-- C2 counterexample: the layout invariant `1 <= lines.length` fails.  For a
caption consisting only of spaces (every word of the split is empty) under a
measurement where only the empty string has zero width, the greedy wrap
produces no lines at all: the wrap branch accepts `0` lines at
`FONT_SIZE_MAX` and the layout result has an empty `lines` array. -/
theorem claim_C2_counterexample :
    calculateTextLayout measureEmptyZero "  " 862 240 = (FONT_SIZE_MAX, []) ∧
      ¬ 1 ≤ (calculateTextLayout measureEmptyZero "  " 862 240).2.length := by
  have hwrap : wrapText (measureEmptyZero FONT_SIZE_MAX) "  " 862 = [] := by
    have hsplit : jsSplitSpace "  " = ["", "", ""] := by decide
    simp [wrapText, hsplit, wrapStep]
  have heq : calculateTextLayout measureEmptyZero "  " 862 240 = (FONT_SIZE_MAX, []) := by
    unfold calculateTextLayout
    have hmz : measureEmptyZero FONT_SIZE_MAX "  " = 1000 := by
      simp only [measureEmptyZero]
      rw [if_neg (by decide)]
    rw [layoutLoop_wrap measureEmptyZero "  " 862 240 (by decide)
      (by rw [hmz]; norm_num) ⟨by rw [hwrap]; norm_num, by rw [hwrap]; norm_num⟩,
      hwrap]
  exact ⟨heq, by rw [heq]; norm_num⟩

/-- C2 (amended): the layout result always satisfies
`FONT_SIZE_MIN <= fontSize <= FONT_SIZE_MAX` and `lines.length <= 2` (and the
same size bounds hold for the single-line variant
`calculateOptimalFontSize`); the lower bound `1 <= lines.length` holds
whenever the caption has at least one non-empty word, i.e. at least one
non-space character (a caption of only spaces can yield zero lines, see the
counterexample). -/
theorem claim_C2_amended_layout_invariant (measure : ℕ → String → ℚ) (text : String)
    (maxWidth maxHeight : ℚ) :
    FONT_SIZE_MIN ≤ (calculateTextLayout measure text maxWidth maxHeight).1 ∧
    (calculateTextLayout measure text maxWidth maxHeight).1 ≤ FONT_SIZE_MAX ∧
    (calculateTextLayout measure text maxWidth maxHeight).2.length ≤ 2 ∧
    ((∃ w ∈ jsSplitSpace text, w ≠ "") →
      1 ≤ (calculateTextLayout measure text maxWidth maxHeight).2.length) ∧
    FONT_SIZE_MIN ≤ calculateOptimalFontSize measure text maxWidth ∧
    calculateOptimalFontSize measure text maxWidth ≤ FONT_SIZE_MAX := by
  have h1 := layoutLoop_invariant measure text maxWidth maxHeight FONT_SIZE_MAX (le_refl _)
  have h2 := optimalLoop_invariant measure text maxWidth FONT_SIZE_MAX (le_refl _)
  exact ⟨h1.1, h1.2.1, h1.2.2.1, h1.2.2.2, h2.1, h2.2⟩

theorem claim_C2_witness :
    1 ≤ (calculateTextLayout measureNarrow "hi" 862 240).2.length :=
  (claim_C2_amended_layout_invariant measureNarrow "hi" 862 240).2.2.2.1
    ⟨"hi", by decide, by decide⟩

lemma list_sum_const (c : ℚ) : ∀ l : List ℚ, (∀ x ∈ l, x = c) → l.sum = l.length * c := by
  intro l
  induction l with
  | nil => intro _; simp
  | cons x rest ih =>
    intro h
    have hx : x = c := h x (List.mem_cons_self x rest)
    rw [List.sum_cons, hx, ih (fun y hy => h y (List.mem_cons_of_mem x hy))]
    rw [List.length_cons]
    push_cast
    ring

lemma mem_sampleOffsets {data : List ℕ} {i : ℕ} (h : i ∈ sampleOffsets data) :
    i < data.length ∧ i % 40 = 0 := by
  simp only [sampleOffsets, List.mem_map, List.mem_range, sampleCount] at h
  rcases h with ⟨k, hk, rfl⟩
  omega

lemma sampleOffsets_length (data : List ℕ) :
    (sampleOffsets data).length = sampleCount data.length := by
  simp [sampleOffsets]

lemma getD_all_eq {data : List ℕ} {v : ℕ} (h : ∀ x ∈ data, x = v) {j : ℕ}
    (hj : j < data.length) : data.getD j 0 = v := by
  rw [List.getD_eq_getElem data 0 hj]
  exact h _ (List.getElem_mem hj)

lemma getD_all_zero {data : List ℕ} (h : ∀ x ∈ data, x = 0) (j : ℕ) :
    data.getD j 0 = 0 := by
  by_cases hj : j < data.length
  · exact getD_all_eq h hj
  · rw [List.getD_eq_default data 0 (by omega)]

lemma brightnessAt_all_255 {data : List ℕ} (h : ∀ x ∈ data, x = 255) {i : ℕ}
    (h1 : i < data.length) (h2 : i + 1 < data.length) (h3 : i + 2 < data.length) :
    brightnessAt data i = 255 := by
  rw [brightnessAt, getD_all_eq h h1, getD_all_eq h h2, getD_all_eq h h3]
  norm_num

lemma calculateRegionBrightness_all_255 {data : List ℕ} (hne : data ≠ [])
    (hmod : 4 ∣ data.length) (h : ∀ x ∈ data, x = 255) :
    calculateRegionBrightness data = 255 := by
  have hlen : 1 ≤ data.length := List.length_pos.mpr hne
  have hcount : 1 ≤ sampleCount data.length := by
    simp only [sampleCount]
    omega
  have hsum : ((sampleOffsets data).map (brightnessAt data)).sum =
      ((sampleOffsets data).length : ℚ) * 255 := by
    rw [list_sum_const 255 _ (by
      intro x hx
      rcases List.mem_map.mp hx with ⟨i, hi, rfl⟩
      rcases mem_sampleOffsets hi with ⟨hilt, himod⟩
      rcases hmod with ⟨m, hm⟩
      exact brightnessAt_all_255 h hilt (by omega) (by omega))]
    simp
  rw [calculateRegionBrightness, hsum]
  have hne40 : ((sampleOffsets data).length : ℚ) ≠ 0 := by
    rw [sampleOffsets_length]
    exact_mod_cast Nat.one_le_iff_ne_zero.mp hcount
  field_simp

lemma calculateRegionBrightness_all_zero {data : List ℕ} (h : ∀ x ∈ data, x = 0) :
    calculateRegionBrightness data = 0 := by
  have hsum : ((sampleOffsets data).map (brightnessAt data)).sum = 0 := by
    rw [list_sum_const 0 _ (by
      intro x hx
      rcases List.mem_map.mp hx with ⟨i, hi, rfl⟩
      rw [brightnessAt, getD_all_zero h, getD_all_zero h, getD_all_zero h]
      norm_num)]
    simp
  rw [calculateRegionBrightness, hsum]
  simp

/-- C3: in brightness mode, the average perceived brightness
`0.299R + 0.587G + 0.114B` of every-10th-pixel samples of the text area
decides the colors: above 128 the text is black with white stroke and the
`TEXT_SHADOW_DARK` shadow, otherwise white text, black stroke,
`TEXT_SHADOW_LIGHT`; in particular a solid-white text area yields black text
and a solid-black one yields white text. -/
theorem claim_C3_brightness_mode_colors (data : List ℕ) :
    (128 < calculateRegionBrightness data →
      brightnessOverlayColors (calculateRegionBrightness data) =
        ("#000000", "#FFFFFF", TEXT_SHADOW_DARK)) ∧
    (calculateRegionBrightness data ≤ 128 →
      brightnessOverlayColors (calculateRegionBrightness data) =
        ("#FFFFFF", "#000000", TEXT_SHADOW_LIGHT)) ∧
    (data ≠ [] → 4 ∣ data.length → (∀ x ∈ data, x = 255) →
      (brightnessOverlayColors (calculateRegionBrightness data)).1 = "#000000") ∧
    (data ≠ [] → (∀ x ∈ data, x = 0) →
      (brightnessOverlayColors (calculateRegionBrightness data)).1 = "#FFFFFF") := by
  refine ⟨fun h => ?_, fun h => ?_, fun hne hmod hall => ?_, fun hne hall => ?_⟩
  · simp [brightnessOverlayColors, h]
  · simp [brightnessOverlayColors, not_lt.mpr h]
  · rw [calculateRegionBrightness_all_255 hne hmod hall]
    norm_num [brightnessOverlayColors]
  · rw [calculateRegionBrightness_all_zero hall]
    norm_num [brightnessOverlayColors]

theorem claim_C3_witness :
    (brightnessOverlayColors (calculateRegionBrightness [255, 255, 255, 255])).1 = "#000000" ∧
    (brightnessOverlayColors (calculateRegionBrightness [0, 0, 0, 0])).1 = "#FFFFFF" :=
  ⟨(claim_C3_brightness_mode_colors [255, 255, 255, 255]).2.2.1 (by decide) (by decide)
      (by decide),
   (claim_C3_brightness_mode_colors [0, 0, 0, 0]).2.2.2 (by decide) (by decide)⟩

lemma tallyLookup_tallyInsert (l : List ((ℕ × ℕ × ℕ) × ℕ)) (k k' : ℕ × ℕ × ℕ) :
    tallyLookup (tallyInsert l k) k' =
      if k' = k then tallyLookup l k' + 1 else tallyLookup l k' := by
  induction l with
  | nil =>
    simp only [tallyInsert, tallyLookup]
    by_cases h : k' = k
    · rw [if_pos (h.symm), if_pos h]
    · rw [if_neg (fun he => h he.symm), if_neg h]
  | cons e rest ih =>
    simp only [tallyInsert]
    by_cases he : e.1 = k
    · rw [if_pos he]
      by_cases hk : k' = k
      · subst hk
        simp [tallyLookup, he]
      · have hek : ¬ e.1 = k' := fun hc => hk (hc.symm.trans he)
        simp only [tallyLookup, if_neg hek, if_neg hk]
    · rw [if_neg he]
      simp only [tallyLookup]
      by_cases hek : e.1 = k'
      · have hk : ¬ k' = k := fun hc => he (hek.trans hc)
        simp only [if_pos hek, if_neg hk]
      · simp only [if_neg hek, ih]

lemma tallyLookup_foldl (k : ℕ × ℕ × ℕ) :
    ∀ (ks : List (ℕ × ℕ × ℕ)) (l : List ((ℕ × ℕ × ℕ) × ℕ)),
      tallyLookup (ks.foldl tallyInsert l) k = tallyLookup l k + occCount ks k := by
  intro ks
  induction ks with
  | nil => intro l; simp [occCount]
  | cons s ss ih =>
    intro l
    rw [List.foldl_cons, ih, tallyLookup_tallyInsert]
    simp only [occCount]
    by_cases h : k = s
    · rw [if_pos h, if_pos (h.symm)]
      omega
    · rw [if_neg h, if_neg (fun hc => h hc.symm)]
      omega

lemma occCount_eq_tallyLookup (data : List ℕ) (k : ℕ × ℕ × ℕ) :
    occCount (bucketedSamples data) k = tallyLookup (colorBuckets data) k := by
  rw [colorBuckets, tallyLookup_foldl]
  simp [tallyLookup]

lemma mem_keys_tallyInsert {l : List ((ℕ × ℕ × ℕ) × ℕ)} {k a : ℕ × ℕ × ℕ} :
    a ∈ (tallyInsert l k).map Prod.fst ↔ a ∈ l.map Prod.fst ∨ a = k := by
  induction l with
  | nil => simp [tallyInsert]
  | cons e rest ih =>
    simp only [tallyInsert]
    by_cases he : e.1 = k
    · simp only [if_pos he, List.map_cons, List.mem_cons]
      constructor
      · rintro (h | h)
        · exact Or.inl (Or.inl h)
        · exact Or.inl (Or.inr h)
      · rintro ((h | h) | h)
        · exact Or.inl h
        · exact Or.inr h
        · exact Or.inl (by rw [he, h])
    · simp only [if_neg he, List.map_cons, List.mem_cons, ih]
      tauto

lemma nodup_keys_tallyInsert {l : List ((ℕ × ℕ × ℕ) × ℕ)} (k : ℕ × ℕ × ℕ)
    (h : (l.map Prod.fst).Nodup) : ((tallyInsert l k).map Prod.fst).Nodup := by
  induction l with
  | nil => simp [tallyInsert]
  | cons e rest ih =>
    simp only [tallyInsert]
    rw [List.map_cons, List.nodup_cons] at h
    by_cases he : e.1 = k
    · simp only [if_pos he, List.map_cons, List.nodup_cons]
      exact h
    · simp only [if_neg he, List.map_cons, List.nodup_cons]
      refine ⟨fun hmem => ?_, ih h.2⟩
      rcases mem_keys_tallyInsert.mp hmem with hm | hm
      · exact h.1 hm
      · exact he hm

lemma nodup_keys_foldl :
    ∀ (ks : List (ℕ × ℕ × ℕ)) (l : List ((ℕ × ℕ × ℕ) × ℕ)),
      (l.map Prod.fst).Nodup → ((ks.foldl tallyInsert l).map Prod.fst).Nodup := by
  intro ks
  induction ks with
  | nil => intro l h; simpa using h
  | cons s ss ih =>
    intro l h
    rw [List.foldl_cons]
    exact ih (tallyInsert l s) (nodup_keys_tallyInsert s h)

lemma tallyLookup_of_mem_nodup :
    ∀ {l : List ((ℕ × ℕ × ℕ) × ℕ)}, (l.map Prod.fst).Nodup →
      ∀ {e : (ℕ × ℕ × ℕ) × ℕ}, e ∈ l → tallyLookup l e.1 = e.2 := by
  intro l
  induction l with
  | nil => intro _ e he; exact absurd he (List.not_mem_nil e)
  | cons x rest ih =>
    intro h e he
    rw [List.map_cons, List.nodup_cons] at h
    rcases List.mem_cons.mp he with rfl | hmem
    · simp [tallyLookup]
    · have hne : ¬ x.1 = e.1 := by
        intro hc
        exact h.1 (hc ▸ List.mem_map_of_mem Prod.fst hmem)
      simp only [tallyLookup, if_neg hne]
      exact ih h.2 hmem

lemma tallyLookup_le_of_all {l : List ((ℕ × ℕ × ℕ) × ℕ)} {n : ℕ}
    (h : ∀ e ∈ l, e.2 ≤ n) (k : ℕ × ℕ × ℕ) : tallyLookup l k ≤ n := by
  induction l with
  | nil => simp [tallyLookup]
  | cons e rest ih =>
    simp only [tallyLookup]
    by_cases he : e.1 = k
    · rw [if_pos he]
      exact h e (List.mem_cons_self e rest)
    · rw [if_neg he]
      exact ih (fun x hx => h x (List.mem_cons_of_mem e hx))

lemma scanStep_fst_le (st : ℕ × (ℕ × ℕ × ℕ)) (e : (ℕ × ℕ × ℕ) × ℕ) :
    st.1 ≤ (scanStep st e).1 := by
  simp only [scanStep]
  split_ifs with h
  · exact le_of_lt h
  · exact le_refl _

lemma scan_fst_mono :
    ∀ (entries : List ((ℕ × ℕ × ℕ) × ℕ)) (st : ℕ × (ℕ × ℕ × ℕ)),
      st.1 ≤ (entries.foldl scanStep st).1 := by
  intro entries
  induction entries with
  | nil => intro st; simp
  | cons e rest ih =>
    intro st
    rw [List.foldl_cons]
    exact le_trans (scanStep_fst_le st e) (ih (scanStep st e))

lemma scan_fst_ge :
    ∀ (entries : List ((ℕ × ℕ × ℕ) × ℕ)) (st : ℕ × (ℕ × ℕ × ℕ)),
      ∀ e ∈ entries, e.2 ≤ (entries.foldl scanStep st).1 := by
  intro entries
  induction entries with
  | nil => intro st e he; exact absurd he (List.not_mem_nil e)
  | cons x rest ih =>
    intro st e he
    rw [List.foldl_cons]
    rcases List.mem_cons.mp he with rfl | hmem
    · refine le_trans ?_ (scan_fst_mono rest (scanStep st e))
      simp only [scanStep]
      split_ifs with h
      · exact le_refl _
      · omega
    · exact ih (scanStep st x) e hmem

lemma scan_result :
    ∀ (entries : List ((ℕ × ℕ × ℕ) × ℕ)) (st : ℕ × (ℕ × ℕ × ℕ)),
      entries.foldl scanStep st = st ∨
        ∃ e ∈ entries, entries.foldl scanStep st = (e.2, e.1) := by
  intro entries
  induction entries with
  | nil => intro st; exact Or.inl (by simp)
  | cons x rest ih =>
    intro st
    rw [List.foldl_cons]
    rcases ih (scanStep st x) with h | ⟨e, he, h⟩
    · rw [h]
      simp only [scanStep]
      split_ifs with hc
      · exact Or.inr ⟨x, List.mem_cons_self x rest, rfl⟩
      · exact Or.inl rfl
    · exact Or.inr ⟨e, List.mem_cons_of_mem x he, h⟩

lemma getContrastingTextColor_eq_higher (pow24 : ℚ → ℚ) (c : ℕ × ℕ × ℕ) :
    getContrastingTextColor pow24 c =
      if getContrastRatio pow24 c.1 c.2.1 c.2.2 0 0 0 ≤
          getContrastRatio pow24 c.1 c.2.1 c.2.2 255 255 255
      then "#FFFFFF" else "#000000" := by
  simp only [getContrastingTextColor, ge_iff_le]
  set w := getContrastRatio pow24 c.1 c.2.1 c.2.2 255 255 255 with hw
  set b := getContrastRatio pow24 c.1 c.2.1 c.2.2 0 0 0 with hb
  by_cases h1 : b ≤ w
  · rw [if_pos h1]
    by_cases h2 : 9 / 2 ≤ w
    · rw [if_pos ⟨h1, h2⟩]
    · rw [if_neg (fun hc => h2 hc.2)]
      by_cases h3 : 9 / 2 ≤ b
      · exact absurd (le_trans h3 h1) h2
      · rw [if_neg h3]
  · rw [if_neg h1, if_neg (fun hc => h1 hc.1)]
    by_cases h3 : 9 / 2 ≤ b
    · rw [if_pos h3]
    · rw [if_neg h3]

lemma extractDominantColor_count_ge (data : List ℕ) (k : ℕ × ℕ × ℕ) :
    occCount (bucketedSamples data) k ≤
      occCount (bucketedSamples data) (extractDominantColor data) := by
  have hnodup : ((colorBuckets data).map Prod.fst).Nodup :=
    nodup_keys_foldl (bucketedSamples data) [] (by simp)
  rw [occCount_eq_tallyLookup, occCount_eq_tallyLookup]
  have h1 : tallyLookup (colorBuckets data) k ≤
      ((colorBuckets data).foldl scanStep (0, (128, 128, 128))).1 :=
    tallyLookup_le_of_all (fun e he => scan_fst_ge (colorBuckets data) (0, (128, 128, 128)) e he) k
  have h2 : ((colorBuckets data).foldl scanStep (0, (128, 128, 128))).1 ≤
      tallyLookup (colorBuckets data) (extractDominantColor data) := by
    rcases scan_result (colorBuckets data) (0, (128, 128, 128)) with hr | ⟨e, he, hr⟩
    · rw [hr]
      exact Nat.zero_le _
    · rw [extractDominantColor, hr]
      exact le_of_eq (tallyLookup_of_mem_nodup hnodup he).symm
  exact le_trans h1 h2

/-- C4: in dominant-color mode the extracted color is a most frequent
quantized bucket of the every-10th-pixel samples (quantization
`floor(value/32)*32` per channel), and the chosen text color is whichever of
pure white or pure black has the higher WCAG contrast ratio
(`(max(L1,L2)+0.05)/(min(L1,L2)+0.05)` over relative luminances with the sRGB
piecewise transform) against that bucket; a color is always returned even
when neither contrast reaches 4.5:1. -/
theorem claim_C4_dominant_color_contrast_choice (pow24 : ℚ → ℚ) (data : List ℕ) :
    (∀ k : ℕ × ℕ × ℕ, occCount (bucketedSamples data) k ≤
        occCount (bucketedSamples data) (extractDominantColor data)) ∧
    (getContrastingTextColor pow24 (extractDominantColor data) =
      if getContrastRatio pow24 (extractDominantColor data).1 (extractDominantColor data).2.1
            (extractDominantColor data).2.2 0 0 0 ≤
          getContrastRatio pow24 (extractDominantColor data).1 (extractDominantColor data).2.1
            (extractDominantColor data).2.2 255 255 255
       then "#FFFFFF" else "#000000") ∧
    (getContrastingTextColor pow24 (extractDominantColor data) = "#FFFFFF" ∨
      getContrastingTextColor pow24 (extractDominantColor data) = "#000000") := by
  refine ⟨extractDominantColor_count_ge data,
    getContrastingTextColor_eq_higher pow24 (extractDominantColor data), ?_⟩
  rw [getContrastingTextColor_eq_higher pow24 (extractDominantColor data)]
  split_ifs
  · exact Or.inl rfl
  · exact Or.inr rfl

lemma jsLookup_of_not_mem {obj : List (String × String)} {name : String}
    (h : name ∉ obj.map Prod.fst) :
    jsLookup obj name = if name ∈ OBJECT_PROTOTYPE_MEMBERS then .inherited else .undefinedProp := by
  rw [jsLookup]
  have hfind : obj.find? (fun e => e.1 == name) = none := by
    rw [List.find?_eq_none]
    intro x hx
    simp only [beq_iff_eq]
    exact fun hc => h (hc ▸ List.mem_map_of_mem Prod.fst hx)
  rw [hfind]

lemma resolveFontFile_of_mem {obj : List (String × String)} {name : String}
    (h : name ∈ obj.map Prod.fst) : ∃ f, resolveFontFile obj name = .ok f := by
  rcases List.mem_map.mp h with ⟨e, he, rfl⟩
  have hsome : (obj.find? (fun x => x.1 == e.1)).isSome := by
    rw [List.find?_isSome]
    exact ⟨e, he, by simp⟩
  rcases Option.isSome_iff_exists.mp hsome with ⟨x, hx⟩
  refine ⟨x.2, ?_⟩
  rw [resolveFontFile, jsLookup, hx]

/-- C6 counterexample: the family name `constructor` is not in the supported
enumeration, yet the font-resolution step does not fail with
`UnknownFontFamily`: the JavaScript lookup `FONT_FAMILIES['constructor']`
finds the truthy `Object.prototype.constructor`, the `!fontFileName` guard
passes, and the subsequent `path.join` throws a `TypeError` instead. -/
theorem claim_C6_counterexample :
    "constructor" ∉ FONT_FAMILIES.map Prod.fst ∧
    "constructor" ∉ FONT_FAMILIES_VARIANT.map Prod.fst ∧
    resolveFontFile FONT_FAMILIES "constructor" = .error .pathArgTypeError ∧
    resolveFontFile FONT_FAMILIES_VARIANT "constructor" = .error .pathArgTypeError ∧
    resolveFontFile FONT_FAMILIES "constructor" ≠
      .error (.unknownFontFamily "constructor") := by
  have h1 : resolveFontFile FONT_FAMILIES "constructor" = .error .pathArgTypeError := rfl
  have h2 : resolveFontFile FONT_FAMILIES_VARIANT "constructor" = .error .pathArgTypeError := rfl
  refine ⟨by decide, by decide, h1, h2, ?_⟩
  intro hc
  rw [h1] at hc
  simp at hc

/-- C6 (amended): for every family name that is neither in the supported
enumeration nor a property name inherited from `Object.prototype`, font
resolution fails with `UnknownFontFamily`; an inherited property name (such
as `constructor` or `toString`) bypasses the falsiness guard and fails later
with a path-argument `TypeError`; names in the enumeration never produce an
error.  The same holds for the five-family variant including
`Product Sans`. -/
theorem claim_C6_amended_unknown_font_family (name : String) :
    (name ∉ FONT_FAMILIES.map Prod.fst → name ∉ OBJECT_PROTOTYPE_MEMBERS →
      resolveFontFile FONT_FAMILIES name = .error (.unknownFontFamily name)) ∧
    (name ∉ FONT_FAMILIES.map Prod.fst → name ∈ OBJECT_PROTOTYPE_MEMBERS →
      resolveFontFile FONT_FAMILIES name = .error .pathArgTypeError) ∧
    (name ∈ FONT_FAMILIES.map Prod.fst →
      ∀ e : OverlayError, resolveFontFile FONT_FAMILIES name ≠ .error e) ∧
    (name ∉ FONT_FAMILIES_VARIANT.map Prod.fst → name ∉ OBJECT_PROTOTYPE_MEMBERS →
      resolveFontFile FONT_FAMILIES_VARIANT name = .error (.unknownFontFamily name)) ∧
    (name ∈ FONT_FAMILIES_VARIANT.map Prod.fst →
      ∀ e : OverlayError, resolveFontFile FONT_FAMILIES_VARIANT name ≠ .error e) := by
  refine ⟨fun h1 h2 => ?_, fun h1 h2 => ?_, fun h => ?_, fun h1 h2 => ?_, fun h => ?_⟩
  · rw [resolveFontFile, jsLookup_of_not_mem h1, if_neg h2]
  · rw [resolveFontFile, jsLookup_of_not_mem h1, if_pos h2]
  · rcases resolveFontFile_of_mem h with ⟨f, hf⟩
    intro e
    rw [hf]
    exact fun hc => Except.noConfusion hc
  · rw [resolveFontFile, jsLookup_of_not_mem h1, if_neg h2]
  · rcases resolveFontFile_of_mem h with ⟨f, hf⟩
    intro e
    rw [hf]
    exact fun hc => Except.noConfusion hc

theorem claim_C6_witness :
    resolveFontFile FONT_FAMILIES "Gotham" = .error (.unknownFontFamily "Gotham") ∧
    resolveFontFile FONT_FAMILIES "toString" = .error .pathArgTypeError ∧
    (∀ e : OverlayError, resolveFontFile FONT_FAMILIES "Montserrat" ≠ .error e) ∧
    resolveFontFile FONT_FAMILIES_VARIANT "Gotham" = .error (.unknownFontFamily "Gotham") ∧
    (∀ e : OverlayError, resolveFontFile FONT_FAMILIES_VARIANT "Product Sans" ≠ .error e) :=
  ⟨(claim_C6_amended_unknown_font_family "Gotham").1 (by decide) (by decide),
   (claim_C6_amended_unknown_font_family "toString").2.1 (by decide) (by decide),
   (claim_C6_amended_unknown_font_family "Montserrat").2.2.1 (by decide),
   (claim_C6_amended_unknown_font_family "Gotham").2.2.2.1 (by decide) (by decide),
   (claim_C6_amended_unknown_font_family "Product Sans").2.2.2.2 (by decide)⟩

/-- C7: a zero-width probe measurement never fails the call: the renderer
first retries with the weight-free font specification, and if the
measurement is still zero it substitutes the universal Arial fallback; the
resulting `ctx.font` is always one of the three specifications, so rendering
proceeds. -/
theorem claim_C7_zero_width_soft_fallback (measureW : String → ℚ) (fontWeight : String)
    (fontSize : ℕ) (family : String) :
    (chooseRenderFont measureW fontWeight fontSize family =
        weightedFontSpec fontWeight fontSize family ∨
      chooseRenderFont measureW fontWeight fontSize family = bareFontSpec fontSize family ∨
      chooseRenderFont measureW fontWeight fontSize family = arialFontSpec fontSize) ∧
    (measureW (weightedFontSpec fontWeight fontSize family) ≠ 0 →
      chooseRenderFont measureW fontWeight fontSize family =
        weightedFontSpec fontWeight fontSize family) ∧
    (measureW (weightedFontSpec fontWeight fontSize family) = 0 →
      measureW (bareFontSpec fontSize family) ≠ 0 →
      chooseRenderFont measureW fontWeight fontSize family = bareFontSpec fontSize family) ∧
    (measureW (weightedFontSpec fontWeight fontSize family) = 0 →
      measureW (bareFontSpec fontSize family) = 0 →
      chooseRenderFont measureW fontWeight fontSize family = arialFontSpec fontSize) := by
  refine ⟨?_, fun h1 => ?_, fun h1 h2 => ?_, fun h1 h2 => ?_⟩
  · simp only [chooseRenderFont]
    split_ifs
    · exact Or.inr (Or.inr rfl)
    · exact Or.inr (Or.inl rfl)
    · exact Or.inl rfl
  · simp only [chooseRenderFont]
    rw [if_neg h1]
  · simp only [chooseRenderFont]
    rw [if_pos h1, if_neg h2]
  · simp only [chooseRenderFont]
    rw [if_pos h1, if_pos h2]

theorem claim_C7_witness :
    chooseRenderFont measureZeroW "700" 120 "Inter" = arialFontSpec 120 ∧
    arialFontSpec 120 = "bold 120px Arial" :=
  ⟨(claim_C7_zero_width_soft_fallback measureZeroW "700" 120 "Inter").2.2.2 rfl rfl,
   by decide⟩

lemma hexBody_cases (l : List Char) :
    (∃ c1 c2 c3 c4 c5 c6 : Char, l = [c1, c2, c3, c4, c5, c6] ∧
      (isHexDigitJs c1 && isHexDigitJs c2 && isHexDigitJs c3 && isHexDigitJs c4 &&
        isHexDigitJs c5 && isHexDigitJs c6) = true ∧
      hexBody l = some (parseHexPair c1 c2, parseHexPair c3 c4, parseHexPair c5 c6)) ∨
    hexBody l = none := by
  rcases l with _ | ⟨c1, _ | ⟨c2, _ | ⟨c3, _ | ⟨c4, _ | ⟨c5, _ | ⟨c6, _ | ⟨c7, rest⟩⟩⟩⟩⟩⟩⟩
  · exact Or.inr rfl
  · exact Or.inr rfl
  · exact Or.inr rfl
  · exact Or.inr rfl
  · exact Or.inr rfl
  · exact Or.inr rfl
  · by_cases hhex : (isHexDigitJs c1 && isHexDigitJs c2 && isHexDigitJs c3 &&
        isHexDigitJs c4 && isHexDigitJs c5 && isHexDigitJs c6) = true
    · exact Or.inl ⟨c1, c2, c3, c4, c5, c6, rfl, hhex, by rw [hexBody, if_pos hhex]⟩
    · exact Or.inr (by rw [hexBody, if_neg hhex])
  · exact Or.inr rfl

lemma isHexDigitJs_ne_hash {c : Char} (h : isHexDigitJs c = true) : c ≠ '#' := by
  intro hc
  subst hc
  exact absurd h (by decide)

lemma stripHash_of_head_ne {c : Char} (rest : List Char) (h : c ≠ '#') :
    stripHash (c :: rest) = c :: rest := by
  rw [stripHash, if_neg h]

/-- C10 (implicit): `hexToRgb` never fails: a backdrop color string that does
not match six hex digits optionally prefixed by `#` produces the grey
fallback `(64, 64, 64)`; a matching string, with or without the leading `#`,
parses into its three RGB components. -/
theorem claim_C10_hexToRgb_fallback_and_parse (s : String) :
    ((¬ ∃ c1 c2 c3 c4 c5 c6 : Char,
        (s.data = [c1, c2, c3, c4, c5, c6] ∨ s.data = '#' :: [c1, c2, c3, c4, c5, c6]) ∧
        (isHexDigitJs c1 && isHexDigitJs c2 && isHexDigitJs c3 && isHexDigitJs c4 &&
          isHexDigitJs c5 && isHexDigitJs c6) = true) →
      hexToRgb s = (64, 64, 64)) ∧
    (∀ c1 c2 c3 c4 c5 c6 : Char,
      (s.data = [c1, c2, c3, c4, c5, c6] ∨ s.data = '#' :: [c1, c2, c3, c4, c5, c6]) →
      (isHexDigitJs c1 && isHexDigitJs c2 && isHexDigitJs c3 && isHexDigitJs c4 &&
        isHexDigitJs c5 && isHexDigitJs c6) = true →
      hexToRgb s = (parseHexPair c1 c2, parseHexPair c3 c4, parseHexPair c5 c6)) := by
  constructor
  · intro hno
    rcases hexBody_cases (stripHash s.data) with ⟨c1, c2, c3, c4, c5, c6, hform, hhex, _⟩ | hnone
    · exfalso
      apply hno
      refine ⟨c1, c2, c3, c4, c5, c6, ?_, hhex⟩
      rcases hdata : s.data with _ | ⟨c, rest⟩
      · rw [hdata] at hform
        simp [stripHash] at hform
      · rw [hdata] at hform
        by_cases hc : c = '#'
        · subst hc
          rw [stripHash, if_pos rfl] at hform
          exact Or.inr (by rw [hform])
        · rw [stripHash_of_head_ne rest hc] at hform
          exact Or.inl hform
    · rw [hexToRgb, hnone]
  · intro c1 c2 c3 c4 c5 c6 hform hhex
    have hbody : stripHash s.data = [c1, c2, c3, c4, c5, c6] := by
      rcases hform with h | h
      · rw [h]
        exact stripHash_of_head_ne _ (isHexDigitJs_ne_hash (by
          simp only [Bool.and_eq_true] at hhex
          exact hhex.1.1.1.1.1))
      · rw [h, stripHash, if_pos rfl]
    rw [hexToRgb, hbody, hexBody, if_pos hhex]

theorem claim_C10_witness :
    hexToRgb "zz" = (64, 64, 64) ∧
    hexToRgb "#4A90A4" = (74, 144, 164) ∧
    hexToRgb "4A90A4" = (74, 144, 164) := by
  refine ⟨(claim_C10_hexToRgb_fallback_and_parse "zz").1 ?_,
    ((claim_C10_hexToRgb_fallback_and_parse "#4A90A4").2 '4' 'A' '9' '0' 'A' '4'
      (Or.inr (by decide)) (by decide)).trans (by decide),
    ((claim_C10_hexToRgb_fallback_and_parse "4A90A4").2 '4' 'A' '9' '0' 'A' '4'
      (Or.inl (by decide)) (by decide)).trans (by decide)⟩
  rintro ⟨c1, c2, c3, c4, c5, c6, hform, -⟩
  have hdata : ("zz" : String).data = ['z', 'z'] := rfl
  rcases hform with h | h <;> rw [hdata] at h <;> simp at h
